import Mathlib

/-!
Verification development for the zatca-xml-js invoice library.

The development shallowly embeds the code of
src/zatca/ZATCASimplifiedTaxInvoice.ts (invoice construction, the two
copies of the toFixedNoRounding numeric formatter, and the signing entry
point) together with spec-modelled components for the parts of the
repository whose sources are not available here (the XML parser, the
signing pipeline of signing.ts, and the QR TLV encoder of qr.ts).

JavaScript numbers are modelled as rationals, and number-to-string
conversion points are modelled at the string level: the regex based
formatter toFixedNoRounding is embedded as a function on the character
list produced by Number.prototype.toString.
-/

namespace Zatca

/-! ## The toFixedNoRounding formatter (string level)

Both copies in the source match the anchored regex
`^-?\d+(?:\.\d{0,fractionDigits})?` (with the g flag; being anchored it
can only match at position 0) against `n.toString()`.  The match takes an
optional minus sign, a nonempty greedy run of digits, and then, when a
dot follows the digits, the dot plus up to fractionDigits further digits.
-/

/-- Result of matching the anchored regex used by both toFixedNoRounding
copies against a string: `none` models a null match result. -/
def matchFixedReg (fractionDigits : Nat) (s : List Char) : Option (List Char) :=
  let isNeg : Bool := match s with
    | c :: _ => c = '-'
    | [] => false
  let sign : List Char := if isNeg then ['-'] else []
  let rest : List Char := if isNeg then s.tail else s
  let intDigits := rest.takeWhile Char.isDigit
  if intDigits.isEmpty then
    none
  else
    match rest.dropWhile Char.isDigit with
    | c :: tail =>
        if c = '.' then
          some (sign ++ intDigits ++ '.' :: (tail.takeWhile Char.isDigit).take fractionDigits)
        else
          some (sign ++ intDigits)
    | [] => some (sign ++ intDigits)

/-- Embedding of the pure function toFixedNoRounding(n, fractionDigits)
from the example source (lines 32 to 46), applied to the character list
of n.toString(). -/
def toFixedNoRounding (s : List Char) (fractionDigits : Nat) : List Char :=
  match matchFixedReg fractionDigits s with
  | some a =>
      match a.findIdx? (fun c => c = '.') with
      | none => a ++ '.' :: List.replicate fractionDigits '0'
      | some dot =>
          let b : Int := (fractionDigits : Int) - ((a.length : Int) - (dot : Int)) + 1
          if 0 < b then a ++ List.replicate b.toNat '0' else a
  | none => ['0', '.', '0', '0']

/-- Embedding of the globally patched method
Number.prototype.toFixedNoRounding (source lines 181 to 194), applied to
the character list of this.toString(). -/
def protoToFixedNoRounding (s : List Char) (n : Nat) : List Char :=
  match matchFixedReg n s with
  | some a =>
      match a.findIdx? (fun c => c = '.') with
      | none => a ++ '.' :: List.replicate n '0'
      | some dot =>
          let b : Int := (n : Int) - ((a.length : Int) - (dot : Int)) + 1
          if 0 < b then a ++ List.replicate b.toNat '0' else a
  | none => ['0', '.', '0', '0']

/-! ## QR TLV encoding (spec-modelled: qr.ts is not among the sources) -/

/-- Errors of the QR TLV encoder, from the error taxonomy of the spec. -/
inductive QRError where
  | fieldTooLarge (tag : Nat)
  | missingField (name : String)
deriving DecidableEq, Repr

/-- Modelled from the spec: the QR TLV encoder of qr.ts is not among the
sources.  For each field it emits a one-byte tag (the 1-based position),
a one-byte length (the byte count of the value, at most 255) and the raw
value bytes; a field longer than 255 bytes aborts the whole encoding
with FieldTooLargeError.  `tag` is the 1-based position of the first
field of the remaining list. -/
def encodeTLVFrom (tag : Nat) : List (List Nat) → Except QRError (List Nat)
  | [] => .ok []
  | v :: rest =>
      if 255 < v.length then
        .error (QRError.fieldTooLarge tag)
      else
        match encodeTLVFrom (tag + 1) rest with
        | .error e => .error e
        | .ok tail => .ok (tag :: v.length :: v ++ tail)

/-- Modelled from the spec: full TLV encoding starts tagging at 1. -/
def encodeTLV (fields : List (List Nat)) : Except QRError (List Nat) :=
  encodeTLVFrom 1 fields

/-- Modelled from the spec: TLV decoding reads a tag byte, a length byte
and that many value bytes, repeatedly until the payload is exhausted. -/
def decodeTLV : List Nat → Option (List (Nat × List Nat))
  | [] => some []
  | _ :: [] => none
  | t :: l :: rest =>
      if l ≤ rest.length then
        match decodeTLV (rest.drop l) with
        | some fs => some ((t, rest.take l) :: fs)
        | none => none
      else none
termination_by bytes => bytes.length
decreasing_by simp; omega

/-- The expected decode result: each field paired with its 1-based
position, starting at `tag`. -/
def taggedFields (tag : Nat) : List (List Nat) → List (Nat × List Nat)
  | [] => []
  | v :: rest => (tag, v) :: taggedFields (tag + 1) rest

lemma decodeTLV_cons (t l : Nat) (rest : List Nat) :
    decodeTLV (t :: l :: rest) =
      if l ≤ rest.length then
        match decodeTLV (rest.drop l) with
        | some fs => some ((t, rest.take l) :: fs)
        | none => none
      else none := by
  rw [decodeTLV.eq_def]

lemma encodeTLVFrom_ok (fields : List (List Nat)) :
    ∀ t, (∀ v ∈ fields, v.length ≤ 255) →
      ∃ out, encodeTLVFrom t fields = .ok out := by
  induction fields with
  | nil => intro t _; exact ⟨[], rfl⟩
  | cons v rest ih =>
      intro t h
      obtain ⟨tail, htail⟩ := ih (t + 1) (fun w hw => h w (List.mem_cons_of_mem _ hw))
      refine ⟨t :: v.length :: v ++ tail, ?_⟩
      have hv : ¬ 255 < v.length := not_lt.mpr (h v (List.mem_cons_self _ _))
      simp only [encodeTLVFrom, if_neg hv, htail]

lemma encodeTLVFrom_err (fields : List (List Nat)) :
    ∀ t, (∃ v ∈ fields, 255 < v.length) →
      ∃ u, encodeTLVFrom t fields = .error (QRError.fieldTooLarge u) := by
  induction fields with
  | nil => intro t h; simp at h
  | cons v rest ih =>
      intro t h
      by_cases hv : 255 < v.length
      · exact ⟨t, by simp only [encodeTLVFrom, if_pos hv]⟩
      · obtain ⟨w, hw, hwlen⟩ := h
        rcases List.mem_cons.mp hw with hweq | hwmem
        · exact absurd (hweq ▸ hwlen) hv
        · obtain ⟨u, hu⟩ := ih (t + 1) ⟨w, hwmem, hwlen⟩
          exact ⟨u, by simp only [encodeTLVFrom, if_neg hv, hu]⟩

lemma decodeTLV_encodeTLVFrom (fields : List (List Nat)) :
    ∀ t out, (∀ v ∈ fields, v.length ≤ 255) →
      encodeTLVFrom t fields = .ok out →
      decodeTLV out = some (taggedFields t fields) := by
  induction fields with
  | nil =>
      intro t out _ hout
      simp only [encodeTLVFrom] at hout
      cases hout
      simp [decodeTLV, taggedFields]
  | cons v rest ih =>
      intro t out h hout
      have hv : ¬ 255 < v.length := not_lt.mpr (h v (List.mem_cons_self _ _))
      simp only [encodeTLVFrom, if_neg hv] at hout
      obtain ⟨tail, htail⟩ :=
        encodeTLVFrom_ok rest (t + 1) (fun w hw => h w (List.mem_cons_of_mem _ hw))
      rw [htail] at hout
      cases hout
      have hlen : v.length ≤ (v ++ tail).length := by
        simp [List.length_append]
      refine (decodeTLV_cons t v.length (v ++ tail)).trans ?_
      rw [if_pos hlen, List.take_left, List.drop_left,
        ih (t + 1) tail (fun w hw => h w (List.mem_cons_of_mem _ hw)) htail]
      rfl

lemma taggedFields_map_snd (fields : List (List Nat)) :
    ∀ t, (taggedFields t fields).map Prod.snd = fields := by
  induction fields with
  | nil => intro t; rfl
  | cons v rest ih => intro t; simp [taggedFields, ih]

/-! ## Numeric model

JavaScript numbers are modelled as rationals.  The two formatting
primitives used by the construction code are
Number.prototype.toFixed(d) (round to d decimals, ties toward the larger
candidate, per the ECMAScript specification) and the patched
Number.prototype.toFixedNoRounding(d) (truncate toward zero to d
decimals).  parseFloat applied to the output of toFixedNoRounding is the
truncated rational itself.  The rendering keeps no sign on a zero
result, a harmless abstraction of the JavaScript negative-zero string.
-/

/-- The integer of scaled truncation toward zero: the numerator of
x truncated to d decimal digits, times 10 to the d. -/
def truncScaled (x : ℚ) (d : Nat) : Int :=
  if 0 ≤ x then ⌊x * (10 : ℚ) ^ d⌋ else -⌊-x * (10 : ℚ) ^ d⌋

/-- The rational value of parseFloat(x.toFixedNoRounding(d)): x
truncated toward zero at d decimal digits. -/
def truncTo (x : ℚ) (d : Nat) : ℚ :=
  (truncScaled x d : ℚ) / (10 : ℚ) ^ d

/-- The scaled integer chosen by Number.prototype.toFixed: the integer n
minimizing the distance of n divided by 10 to the d from x, ties going
to the larger candidate. -/
def roundScaled (x : ℚ) (d : Nat) : Int :=
  ⌊x * (10 : ℚ) ^ d + 1 / 2⌋

/-- Left-pads a digit string with zeros up to width d. -/
def padZeros (s : String) (d : Nat) : String :=
  String.mk (List.replicate (d - s.length) '0') ++ s

/-- Renders a scaled integer n as a decimal numeral with exactly d
fraction digits. -/
def renderScaled (n : Int) (d : Nat) : String :=
  let sign := if n < 0 then "-" else ""
  let m := n.natAbs
  if d = 0 then sign ++ toString m
  else sign ++ toString (m / 10 ^ d) ++ "." ++ padZeros (toString (m % 10 ^ d)) d

/-- Model of the JavaScript builtin x.toFixed(d). -/
def jsToFixed (x : ℚ) (d : Nat) : String :=
  renderScaled (roundScaled x d) d

/-- Model of x.toFixedNoRounding(d) at the rational level, for the uses
inside the invoice construction pipeline. -/
def toFixedNoRoundingQ (x : ℚ) (d : Nat) : String :=
  renderScaled (truncScaled x d) d

/-! ## Data model of the invoice props

The props structure and its nested types come from
templates/simplified_tax_invoice_template.ts, whose source is not
present; the fields are those read by ZATCASimplifiedTaxInvoice.ts and
supplied by the example programs.  Optional members are Option valued
and the JavaScript truthiness tests of the source are made explicit:
an absent value, the number 0 and the empty string are falsy. -/

structure InvoiceDiscount where
  amount : ℚ
  reason : String
deriving DecidableEq

structure InvoiceOtherTax where
  percent_amount : ℚ
deriving DecidableEq

structure ZATCASimplifiedInvoiceLineItem where
  id : String
  name : String
  quantity : ℚ
  price : ℚ
  tax : ℚ
  total_price : ℚ
  total_tax : ℚ
  VAT_percent : ℚ
  other_taxes : List InvoiceOtherTax
  discounts : List InvoiceDiscount
deriving DecidableEq

structure EGSUnitLocation where
  city : String
  city_subdivision : String
  street : String
  plot_identification : String
  building : String
  postal_zone : String
deriving DecidableEq

structure EGSUnitInfo where
  uuid : String
  custom_id : String
  model : String
  CRN_number : String
  VAT_name : String
  VAT_number : String
  location : EGSUnitLocation
  branch_name : String
  branch_industry : String
deriving DecidableEq

structure CancelationProps where
  canceled_invoice_number : Nat
  payment_method : String
  reason : Option String
deriving DecidableEq

structure ZATCASimplifiedInvoiceProps where
  egs_info : EGSUnitInfo
  invoice_counter_number : Nat
  invoice_serial_number : String
  issue_date : String
  issue_time : String
  previous_invoice_hash : String
  line_items : Option (List ZATCASimplifiedInvoiceLineItem)
  total_exl_amount : ℚ
  total_tax : ℚ
  total_inclusive_amount : ℚ
  buyer_name : Option String
  payment_method : Option String
  cancelation : Option CancelationProps
  allowance_total : Option ℚ
  delivery_charges : Option ℚ
deriving DecidableEq

/-- JavaScript truthiness of an optional number: 0 and absence are
falsy. -/
def qTruthy : Option ℚ → Bool
  | none => false
  | some a => a ≠ 0

/-- JavaScript truthiness of an optional string: the empty string and
absence are falsy. -/
def sTruthy : Option String → Bool
  | none => false
  | some s => s ≠ ""

/-! ## JavaScript object values and the XML document model -/

/-- Values of the loosely typed field bags the construction code
assembles into XML shaped objects. -/
inductive JSValue where
  | s (v : String)
  | q (v : ℚ)
  | b (v : Bool)
  | undef
  | arr (vs : List JSValue)
  | obj (fields : List (String × JSValue))

/-- One set mutation applied to an XMLDocument: an element path, the
overwrite flag and the value. -/
structure SetOp where
  path : String
  overwrite : Bool
  value : JSValue

/-- What the XMLDocument was constructed from. -/
inductive XMLBase where
  | parsed (invoice_xml_str : String)
  | template (root : JSValue)

/-- Modelled from the spec: the XML parser module (XMLDocument of
src/parser) is not among the sources.  Per the spec an InvoiceDocument
is a tree with significant ordering, mutable through set until signed;
the model records the construction input and the ordered list of set
mutations exactly as issued. -/
structure XMLDocument where
  base : XMLBase
  sets : List SetOp

/-- Modelled from the spec: XMLDocument.set appends one mutation,
preserving the order in which elements were added. -/
def XMLDocument.set (doc : XMLDocument) (path : String) (overwrite : Bool)
    (value : JSValue) : XMLDocument :=
  { doc with sets := doc.sets ++ [⟨path, overwrite, value⟩] }

/-- The set operations of a document whose path is `path`, in order. -/
def XMLDocument.setsAt (doc : XMLDocument) (path : String) : List SetOp :=
  doc.sets.filter (fun op => op.path = path)

/-- Key lookup in an object value, matching the first occurrence. -/
def JSValue.lookup : JSValue → String → Option JSValue
  | .obj fields, k => (fields.find? (fun p => p.1 = k)).map Prod.snd
  | _, _ => none

/-- The #text entry of the object stored under key k. -/
def JSValue.textAt (v : JSValue) (k : String) : Option JSValue :=
  (v.lookup k).bind (fun w => w.lookup "#text")

/-- Modelled from the spec: defaultSimplifiedTaxInvoice of
templates/simplified_tax_invoice_template.ts is not among the sources.
Per the spec the templating layer populates the invoice business fields
(identity of the selling unit, serial and counter, issue date and time,
buyer, previous invoice hash, line items come later through set); the
template has no element derived from the caller supplied
total_exl_amount. -/
def defaultSimplifiedTaxInvoice (props : ZATCASimplifiedInvoiceProps) : JSValue :=
  .obj [
    ("cbc:ProfileID", .s "reporting:1.0"),
    ("cbc:ID", .s props.invoice_serial_number),
    ("cbc:UUID", .s props.egs_info.uuid),
    ("cbc:IssueDate", .s props.issue_date),
    ("cbc:IssueTime", .s props.issue_time),
    ("cbc:InvoiceCounter", .q props.invoice_counter_number),
    ("PreviousInvoiceHash", .s props.previous_invoice_hash),
    ("SellerVATName", .s props.egs_info.VAT_name),
    ("SellerVATNumber", .s props.egs_info.VAT_number),
    ("SellerLocationBuilding", .s props.egs_info.location.building),
    ("SellerLocationStreet", .s props.egs_info.location.street),
    ("SellerLocationCity", .s props.egs_info.location.city),
    ("SellerLocationPostal", .s props.egs_info.location.postal_zone),
    ("SellerCRN", .s props.egs_info.CRN_number),
    ("BranchName", .s props.egs_info.branch_name),
    ("BranchIndustry", .s props.egs_info.branch_industry),
    ("BuyerName", match props.buyer_name with
      | some b => .s b
      | none => .undef)]

/-! ## ZATCASimplifiedTaxInvoice (transcribed from the source)

The private methods of the class are pure except for the set calls on
invoice_xml; each is embedded as a function, and parseLineItems threads
the document explicitly.  Every occurrence of
parseFloat(e.toFixedNoRounding(2)) becomes truncTo e 2, every kept
string e.toFixedNoRounding(2) becomes toFixedNoRoundingQ e 2, and every
e.toFixed(2) becomes jsToFixed e 2. -/

/-- Return value of constructLineItemTotals. -/
structure LineItemTotals where
  cacAllowanceCharges : List JSValue
  cacClassifiedTaxCategories : List JSValue
  cacTaxTotal : JSValue
  line_item_total_tax_exclusive : ℚ
  line_item_total_taxes : ℚ
  line_item_total_discounts : ℚ

/-- Embedding of constructLineItemTotals (source lines 221 to 295). -/
def constructLineItemTotals (line_item : ZATCASimplifiedInvoiceLineItem) :
    LineItemTotals :=
  let VAT : JSValue := .obj [
    ("cbc:ID", .s (if line_item.VAT_percent ≠ 0 then "S" else "O")),
    ("cbc:Percent",
      if line_item.VAT_percent ≠ 0 then
        .s (toFixedNoRoundingQ (line_item.VAT_percent * 100) 2)
      else .undef),
    ("cac:TaxScheme", .obj [("cbc:ID", .s "VAT")])]
  let line_item_total_discounts :=
    line_item.discounts.foldl (fun acc d => acc + d.amount) 0
  let cacAllowanceCharges := line_item.discounts.map (fun d => JSValue.obj [
    ("cbc:ChargeIndicator", .s "false"),
    ("cbc:AllowanceChargeReason", .s d.reason),
    ("cbc:Amount", .obj [
      ("@_currencyID", .s "SAR"),
      ("#text", .s (toFixedNoRoundingQ d.amount 2))])])
  let line_item_subtotal :=
    line_item.total_price - line_item.total_tax - line_item_total_discounts
  let line_item_total_taxes :=
    line_item.other_taxes.foldl
      (fun acc tax =>
        truncTo (truncTo acc 2 + truncTo (tax.percent_amount * line_item_subtotal) 2) 2)
      line_item.total_tax
  let cacClassifiedTaxCategories :=
    VAT :: line_item.other_taxes.map (fun tax => JSValue.obj [
      ("cbc:ID", .s "S"),
      ("cbc:Percent", .s (toFixedNoRoundingQ (tax.percent_amount * 100) 2)),
      ("cac:TaxScheme", .obj [("cbc:ID", .s "VAT")])])
  let cacTaxTotal : JSValue := .obj [
    ("cbc:TaxAmount", .obj [
      ("@_currencyID", .s "SAR"),
      ("#text", .s (jsToFixed line_item_total_taxes 2))]),
    ("cbc:RoundingAmount", .obj [
      ("@_currencyID", .s "SAR"),
      ("#text", .s (jsToFixed line_item.total_price 2))])]
  ⟨cacAllowanceCharges, cacClassifiedTaxCategories, cacTaxTotal,
    line_item_subtotal, line_item_total_taxes, line_item_total_discounts⟩

/-- Embedding of constructLineItem (source lines 298 to 340): the XML
object of one invoice line. -/
def constructLineItem (line_item : ZATCASimplifiedInvoiceLineItem) : JSValue :=
  let t := constructLineItemTotals line_item
  .obj [
    ("cbc:ID", .s line_item.id),
    ("cbc:InvoicedQuantity", .obj [
      ("@_unitCode", .s "PCE"),
      ("#text", .q line_item.quantity)]),
    ("cbc:LineExtensionAmount", .obj [
      ("@_currencyID", .s "SAR"),
      ("#text", .s (toFixedNoRoundingQ t.line_item_total_tax_exclusive 2))]),
    ("cac:AllowanceCharge", .arr t.cacAllowanceCharges),
    ("cac:TaxTotal", t.cacTaxTotal),
    ("cac:Item", .obj [
      ("cbc:Name", .s line_item.name),
      ("cac:ClassifiedTaxCategory", .arr t.cacClassifiedTaxCategories)]),
    ("cac:Price", .obj [
      ("cbc:PriceAmount", .obj [
        ("@_currencyID", .s "SAR"),
        ("#text", .s (jsToFixed (line_item.price - line_item.tax) 2))])])]

/-- Embedding of constructLegalMonetaryTotal (source lines 343 to 379). -/
def constructLegalMonetaryTotal (tax_inclusive_subtotal taxes_total
    allowances_total charges_total : ℚ) : JSValue :=
  let tax_exl_amount := jsToFixed (tax_inclusive_subtotal - taxes_total) 2
  .obj [
    ("cbc:LineExtensionAmount", .obj [
      ("@_currencyID", .s "SAR"),
      ("#text", .s tax_exl_amount)]),
    ("cbc:TaxExclusiveAmount", .obj [
      ("@_currencyID", .s "SAR"),
      ("#text", .s tax_exl_amount)]),
    ("cbc:TaxInclusiveAmount", .obj [
      ("@_currencyID", .s "SAR"),
      ("#text", .s (jsToFixed tax_inclusive_subtotal 2))]),
    ("cbc:AllowanceTotalAmount", .obj [
      ("@_currencyID", .s "SAR"),
      ("#text", .q allowances_total)]),
    ("cbc:ChargeTotalAmount", .obj [
      ("@_currencyID", .s "SAR"),
      ("#text", .q charges_total)]),
    ("cbc:PrepaidAmount", .obj [
      ("@_currencyID", .s "SAR"),
      ("#text", .q 0)]),
    ("cbc:PayableAmount", .obj [
      ("@_currencyID", .s "SAR"),
      ("#text", .s (toFixedNoRoundingQ tax_inclusive_subtotal 2))])]

/-- Descending insertion used to model Array.sort with the comparator
fun (a, b) => b - a. -/
def insertDesc (x : ℚ) : List ℚ → List ℚ
  | [] => [x]
  | y :: ys => if y ≤ x then x :: y :: ys else y :: insertDesc x ys

/-- Descending sort of the VAT percentages. -/
def sortDesc (l : List ℚ) : List ℚ :=
  l.foldr insertDesc []

/-- The total taxes accumulated by constructTaxTotal: props.total_tax
plus, for every line item and every one of its other taxes, the
truncated tax amount on the discounted line price. -/
def taxTotalsOfItems (line_items : List ZATCASimplifiedInvoiceLineItem)
    (start : ℚ) : ℚ :=
  line_items.foldl
    (fun acc line_item =>
      let total_line_item_discount :=
        line_item.discounts.foldl (fun p c => p + c.amount) 0
      let taxable_amount := line_item.total_price - total_line_item_discount
      line_item.other_taxes.foldl
        (fun a tax => a + truncTo (tax.percent_amount * taxable_amount) 2) acc)
    start

/-- The tax subtotal entry pushed by the local addTaxSubtotal of
constructTaxTotal.  A none percentage models the undefined produced by
indexing an empty sorted array; undefined times 100 is NaN, whose
toString image fails the toFixedNoRounding regex, giving the string
0.00, and undefined is falsy in the two conditional expressions. -/
def addTaxSubtotalEntry (tax_incl_amt tax_amount : ℚ)
    (tax_percent : Option ℚ) : JSValue :=
  .obj [
    ("cbc:TaxableAmount", .obj [
      ("@_currencyID", .s "SAR"),
      ("#text", .s (toFixedNoRoundingQ (tax_incl_amt - tax_amount) 2))]),
    ("cbc:TaxAmount", .obj [
      ("@_currencyID", .s "SAR"),
      ("#text", .s (jsToFixed tax_amount 2))]),
    ("cac:TaxCategory", .obj [
      ("cbc:ID", .obj [
        ("@_schemeAgencyID", .q 6),
        ("@_schemeID", .s "UN/ECE 5305"),
        ("#text", .s (if qTruthy tax_percent then "S" else "O"))]),
      ("cbc:Percent", .s (match tax_percent with
        | some p => toFixedNoRoundingQ (p * 100) 2
        | none => "0.00")),
      ("cbc:TaxExemptionReason",
        if qTruthy tax_percent then .undef else .s "Not subject to VAT"),
      ("cac:TaxScheme", .obj [
        ("cbc:ID", .obj [
          ("@_schemeAgencyID", .s "6"),
          ("@_schemeID", .s "UN/ECE 5153"),
          ("#text", .s "VAT")])])])]

/-- Embedding of constructTaxTotal (source lines 381 to 447): the two
element array set at Invoice/cac:TaxTotal. -/
def constructTaxTotal (line_items : List ZATCASimplifiedInvoiceLineItem)
    (props : ZATCASimplifiedInvoiceProps) : JSValue :=
  let taxes_total := taxTotalsOfItems line_items props.total_tax
  let tax_percentage := (sortDesc (line_items.map (fun li => li.VAT_percent))).head?
  let cacTaxSubtotal :=
    [addTaxSubtotalEntry props.total_inclusive_amount taxes_total tax_percentage]
  .arr [
    .obj [
      ("cbc:TaxAmount", .obj [
        ("@_currencyID", .s "SAR"),
        ("#text", .s (jsToFixed taxes_total 2))]),
      ("cac:TaxSubtotal", .arr cacTaxSubtotal)],
    .obj [
      ("cbc:TaxAmount", .obj [
        ("@_currencyID", .s "SAR"),
        ("#text", .s (jsToFixed taxes_total 2))])]]

/-- The per item discount total of parseLineItems:
discounts.reduce((pVal, cVal) => pVal + cVal.amount, 0) with undefined
coalesced to 0. -/
def discountTotalOf (line_item : ZATCASimplifiedInvoiceLineItem) : ℚ :=
  line_item.discounts.foldl (fun pVal cVal => pVal + cVal.amount) 0

/-- The line_total_allowances accumulator of parseLineItems before its
final truncation. -/
def lineTotalAllowancesRaw (line_items : List ZATCASimplifiedInvoiceLineItem) : ℚ :=
  line_items.foldl (fun acc li => acc + truncTo (discountTotalOf li) 2) 0

/-- Embedding of parseLineItems (source lines 449 to 526), threading the
invoice_xml document through the sequence of set calls. -/
def parseLineItems (line_items : List ZATCASimplifiedInvoiceLineItem)
    (props : ZATCASimplifiedInvoiceProps) (doc : XMLDocument) : XMLDocument :=
  let total_taxes : ℚ := props.total_tax
  let invoice_line_items := line_items.map constructLineItem
  let total_inclusive_amount := truncTo props.total_inclusive_amount 2
  let line_total_allowances := truncTo (lineTotalAllowancesRaw line_items) 2
  let doc1 :=
    match props.cancelation with
    | some cancelation =>
        doc.set "Invoice/cac:PaymentMeans" false (.obj [
          ("cbc:PaymentMeansCode", .s cancelation.payment_method),
          ("cbc:InstructionNote", .s (cancelation.reason.getD "No note Specified"))])
    | none =>
        if sTruthy props.payment_method then
          doc.set "Invoice/cac:PaymentMeans" false (.obj [
            ("cbc:PaymentMeansCode", .s (props.payment_method.getD ""))])
        else doc
  let doc2 :=
    if qTruthy props.allowance_total then
      doc1.set "Invoice/cac:AllowanceCharge" false (.obj [
        ("cbc:ChargeIndicator", .b false),
        ("cbc:AllowanceChargeReason", .s "discount"),
        ("cbc:Amount", .obj [
          ("@_currencyID", .s "SAR"),
          ("#text", .s (toFixedNoRoundingQ (props.allowance_total.getD 0) 2))]),
        ("cac:TaxCategory", .obj [
          ("cbc:ID", .s "S"),
          ("cbc:Percent", .q 15),
          ("cac:TaxScheme", .obj [("cbc:ID", .s "VAT")])])])
    else doc1
  let doc3 :=
    if qTruthy props.delivery_charges then
      doc2.set "Invoice/cac:AllowanceCharge" false (.obj [
        ("cbc:ChargeIndicator", .b true),
        ("cbc:AllowanceChargeReason", .s "Delivery Charges"),
        ("cbc:Amount", .obj [
          ("@_currencyID", .s "SAR"),
          ("#text", .s (toFixedNoRoundingQ (props.delivery_charges.getD 0) 2))])])
    else doc2
  let doc4 := doc3.set "Invoice/cac:TaxTotal" false (constructTaxTotal line_items props)
  let doc5 := doc4.set "Invoice/cac:LegalMonetaryTotal" true
    (constructLegalMonetaryTotal
      total_inclusive_amount
      total_taxes
      (line_total_allowances + (props.allowance_total.getD 0))
      (props.delivery_charges.getD 0))
  invoice_line_items.foldl
    (fun d line_item => d.set "Invoice/cac:InvoiceLine" false line_item) doc5

/-- Embedding of the class constructor (source lines 206 to 219).  The
argument object has two optional members; a supplied but empty
invoice_xml_str is falsy, so the constructor falls through to the props
branch.  The inner check that new XMLDocument returned a truthy value
can never throw, since a JavaScript constructor call always yields an
object. -/
def newZATCASimplifiedTaxInvoice (invoice_xml_str : Option String)
    (props : Option ZATCASimplifiedInvoiceProps) : Except String XMLDocument :=
  if sTruthy invoice_xml_str then
    .ok { base := .parsed (invoice_xml_str.getD ""), sets := [] }
  else
    match props with
    | none => .error "Unable to create new XML invoice."
    | some p =>
        .ok (parseLineItems (p.line_items.getD []) p
          { base := .template (defaultSimplifiedTaxInvoice p), sets := [] })

/-- Embedding of getXML (source lines 528 to 530): returns the invoice
document. -/
def getXML (doc : XMLDocument) : XMLDocument :=
  doc

/-- The last value set at a path, the final content of that element for
an overwriting set. -/
def XMLDocument.lastSetAt (doc : XMLDocument) (path : String) : Option JSValue :=
  ((doc.setsAt path).getLast?).map (fun op => op.value)

/-! ## The set operations issued by parseLineItems, as list segments -/

/-- The PaymentMeans operations of parseLineItems: one for a
cancelation, one for a plain payment method, none otherwise. -/
def paymentMeansOps (props : ZATCASimplifiedInvoiceProps) : List SetOp :=
  match props.cancelation with
  | some cancelation =>
      [⟨"Invoice/cac:PaymentMeans", false, .obj [
        ("cbc:PaymentMeansCode", .s cancelation.payment_method),
        ("cbc:InstructionNote", .s (cancelation.reason.getD "No note Specified"))]⟩]
  | none =>
      if sTruthy props.payment_method then
        [⟨"Invoice/cac:PaymentMeans", false, .obj [
          ("cbc:PaymentMeansCode", .s (props.payment_method.getD ""))]⟩]
      else []

/-- The AllowanceCharge operation for a truthy allowance_total. -/
def allowanceOps (props : ZATCASimplifiedInvoiceProps) : List SetOp :=
  if qTruthy props.allowance_total then
    [⟨"Invoice/cac:AllowanceCharge", false, .obj [
      ("cbc:ChargeIndicator", .b false),
      ("cbc:AllowanceChargeReason", .s "discount"),
      ("cbc:Amount", .obj [
        ("@_currencyID", .s "SAR"),
        ("#text", .s (toFixedNoRoundingQ (props.allowance_total.getD 0) 2))]),
      ("cac:TaxCategory", .obj [
        ("cbc:ID", .s "S"),
        ("cbc:Percent", .q 15),
        ("cac:TaxScheme", .obj [("cbc:ID", .s "VAT")])])]⟩]
  else []

/-- The AllowanceCharge operation for truthy delivery_charges. -/
def chargesOps (props : ZATCASimplifiedInvoiceProps) : List SetOp :=
  if qTruthy props.delivery_charges then
    [⟨"Invoice/cac:AllowanceCharge", false, .obj [
      ("cbc:ChargeIndicator", .b true),
      ("cbc:AllowanceChargeReason", .s "Delivery Charges"),
      ("cbc:Amount", .obj [
        ("@_currencyID", .s "SAR"),
        ("#text", .s (toFixedNoRoundingQ (props.delivery_charges.getD 0) 2))])]⟩]
  else []

/-- The LegalMonetaryTotal value set by parseLineItems. -/
def legalMonetaryTotalValue (line_items : List ZATCASimplifiedInvoiceLineItem)
    (props : ZATCASimplifiedInvoiceProps) : JSValue :=
  constructLegalMonetaryTotal
    (truncTo props.total_inclusive_amount 2)
    props.total_tax
    (truncTo (lineTotalAllowancesRaw line_items) 2 + props.allowance_total.getD 0)
    (props.delivery_charges.getD 0)

/-- The InvoiceLine operations, one per constructed line item. -/
def lineOps (line_items : List ZATCASimplifiedInvoiceLineItem) : List SetOp :=
  (line_items.map constructLineItem).map
    (fun li => ⟨"Invoice/cac:InvoiceLine", false, li⟩)

lemma foldl_set_sets (P : String) (lis : List JSValue) (d : XMLDocument) :
    (lis.foldl (fun d li => d.set P false li) d).sets =
      d.sets ++ lis.map (fun li => ⟨P, false, li⟩) := by
  induction lis generalizing d with
  | nil => simp
  | cons li rest ih =>
      rw [List.foldl_cons, ih, List.map_cons]
      simp [XMLDocument.set]

/-- The document produced by parseLineItems carries exactly the
operation segments above, in source order. -/
lemma parseLineItems_sets (line_items : List ZATCASimplifiedInvoiceLineItem)
    (props : ZATCASimplifiedInvoiceProps) (doc : XMLDocument) :
    (parseLineItems line_items props doc).sets =
      doc.sets ++ paymentMeansOps props ++ allowanceOps props ++ chargesOps props
        ++ [⟨"Invoice/cac:TaxTotal", false, constructTaxTotal line_items props⟩]
        ++ [⟨"Invoice/cac:LegalMonetaryTotal", true,
              legalMonetaryTotalValue line_items props⟩]
        ++ lineOps line_items := by
  unfold parseLineItems paymentMeansOps allowanceOps chargesOps
    legalMonetaryTotalValue lineOps
  rw [foldl_set_sets]
  cases props.cancelation <;>
    by_cases hp : sTruthy props.payment_method <;>
    by_cases ha : qTruthy props.allowance_total <;>
    by_cases hc : qTruthy props.delivery_charges <;>
    simp [hp, ha, hc, XMLDocument.set, List.append_assoc]

lemma paymentMeansOps_filter_LMT (props : ZATCASimplifiedInvoiceProps) :
    (paymentMeansOps props).filter
      (fun op => op.path = "Invoice/cac:LegalMonetaryTotal") = [] := by
  unfold paymentMeansOps
  cases props.cancelation
  · split <;> simp
  · simp

lemma allowanceOps_filter_LMT (props : ZATCASimplifiedInvoiceProps) :
    (allowanceOps props).filter
      (fun op => op.path = "Invoice/cac:LegalMonetaryTotal") = [] := by
  unfold allowanceOps
  split <;> simp

lemma chargesOps_filter_LMT (props : ZATCASimplifiedInvoiceProps) :
    (chargesOps props).filter
      (fun op => op.path = "Invoice/cac:LegalMonetaryTotal") = [] := by
  unfold chargesOps
  split <;> simp

lemma lineOps_filter_LMT (line_items : List ZATCASimplifiedInvoiceLineItem) :
    (lineOps line_items).filter
      (fun op => op.path = "Invoice/cac:LegalMonetaryTotal") = [] := by
  unfold lineOps
  rw [List.filter_eq_nil_iff]
  intro op hop
  obtain ⟨li, _, rfl⟩ := List.mem_map.mp hop
  simp

/-- The unique LegalMonetaryTotal operation of a freshly constructed
invoice. -/
lemma parseLineItems_setsAt_LMT (line_items : List ZATCASimplifiedInvoiceLineItem)
    (props : ZATCASimplifiedInvoiceProps) (doc : XMLDocument)
    (hd : doc.sets = []) :
    (parseLineItems line_items props doc).setsAt "Invoice/cac:LegalMonetaryTotal" =
      [⟨"Invoice/cac:LegalMonetaryTotal", true,
        legalMonetaryTotalValue line_items props⟩] := by
  unfold XMLDocument.setsAt
  rw [parseLineItems_sets, hd]
  simp only [List.nil_append, List.filter_append, paymentMeansOps_filter_LMT,
    allowanceOps_filter_LMT, chargesOps_filter_LMT, lineOps_filter_LMT]
  simp

end Zatca

/-! ## Claim theorems for the formatter and the TLV encoder -/

open Zatca

/-- C3: the pure imported formatting function toFixedNoRounding and the
globally patched method Number.prototype.toFixedNoRounding compute the
same string on every number (modelled by the character list of its
toString image) and every fraction-digit count: the two embeddings are
equal functions. -/
theorem claim3_toFixedNoRounding_refines_proto :
    ∀ (s : List Char) (d : Nat),
      toFixedNoRounding s d = protoToFixedNoRounding s d := by
  intro s d
  rfl

/-- C4: TLV encoding succeeds whenever every field value fits in 255
bytes (in particular for a value of exactly 255 bytes), and whenever
some field value exceeds 255 bytes it fails with FieldTooLargeError and
produces no TLV payload. -/
theorem claim4_encodeTLV_boundary :
    (∀ fields : List (List Nat), (∀ v ∈ fields, v.length ≤ 255) →
      ∃ out, encodeTLV fields = .ok out) ∧
    (∀ fields : List (List Nat), (∃ v ∈ fields, 255 < v.length) →
      (∃ u, encodeTLV fields = .error (QRError.fieldTooLarge u)) ∧
      ∀ out, encodeTLV fields ≠ .ok out) := by
  constructor
  · intro fields h
    exact encodeTLVFrom_ok fields 1 h
  · intro fields h
    obtain ⟨u, hu⟩ := encodeTLVFrom_err fields 1 h
    refine ⟨⟨u, hu⟩, ?_⟩
    intro out hout
    rw [encodeTLV] at hout
    rw [hu] at hout
    cases hout

/-- Closed witness for C4: a single field of exactly 255 bytes encodes
successfully, and one of exactly 256 bytes fails with
FieldTooLargeError. -/
theorem claim4_encodeTLV_boundary_witness :
    (∃ out, encodeTLV [List.replicate 255 7] = .ok out) ∧
    (∃ u, encodeTLV [List.replicate 256 7] =
      .error (QRError.fieldTooLarge u)) :=
  ⟨claim4_encodeTLV_boundary.1 [List.replicate 255 7]
      (by
        intro v hv
        rw [List.mem_singleton] at hv
        rw [hv, List.length_replicate]),
    (claim4_encodeTLV_boundary.2 [List.replicate 256 7]
      ⟨List.replicate 256 7, List.mem_singleton.mpr rfl,
        by rw [List.length_replicate]; omega⟩).1⟩

/-- C5: for every list of fields whose values each fit in 255 bytes, the
encoder emits for the field at 1-based position i the tag byte i, the
exact byte count and the raw bytes, and decoding the payload recovers
exactly the encoded positions and values. -/
theorem claim5_encodeTLV_roundTrip (fields : List (List Nat))
    (h : ∀ v ∈ fields, v.length ≤ 255) :
    ∃ out, encodeTLV fields = .ok out ∧
      decodeTLV out = some (taggedFields 1 fields) ∧
      (taggedFields 1 fields).map Prod.snd = fields := by
  obtain ⟨out, hout⟩ := encodeTLVFrom_ok fields 1 h
  exact ⟨out, hout, decodeTLV_encodeTLVFrom fields 1 out h hout,
    taggedFields_map_snd fields 1⟩

/-- Closed witness for C5 at a concrete two-field list. -/
theorem claim5_encodeTLV_roundTrip_witness :
    ∃ out, encodeTLV [[10, 20], [30]] = .ok out ∧
      decodeTLV out = some (taggedFields 1 [[10, 20], [30]]) ∧
      (taggedFields 1 [[10, 20], [30]]).map Prod.snd = [[10, 20], [30]] :=
  claim5_encodeTLV_roundTrip [[10, 20], [30]] (by decide)

/-! ## Claim theorems for the invoice construction pipeline -/

/-- Sample props taken from the example program examples/full.ts, used
only to instantiate closed witnesses. -/
def sampleProps : ZATCASimplifiedInvoiceProps where
  egs_info :=
    { uuid := "6f4d20e0-6bfe-4a80-9389-7dabe6620f12"
      custom_id := "EGS1-886431145"
      model := "IOS"
      CRN_number := "1010010000"
      VAT_name := "ABC Company"
      VAT_number := "399999999900003"
      location :=
        { city := "city"
          city_subdivision := "32423423"
          street := "street"
          plot_identification := "4323"
          building := "1545"
          postal_zone := "11417" }
      branch_name := "My Branch Name"
      branch_industry := "Food" }
  invoice_counter_number := 1
  invoice_serial_number := "EGS1-886431145-1"
  issue_date := "2022-03-13"
  issue_time := "14:40:40"
  previous_invoice_hash :=
    "NWZlY2ViNjZmZmM4NmYzOGQ5NTI3ODZjNmQ2OTZjNzljMmRiYzIzOWRkNGU5MWI0NjcyOWQ3M2EyN2ZiNTdlOQ=="
  line_items := some [
    { id := "1"
      name := "item1"
      quantity := 10
      price := 25
      tax := 3.26
      total_price := 250
      total_tax := 32.6
      VAT_percent := 0.15
      other_taxes := []
      discounts := [] }]
  total_exl_amount := 500 - 65.2
  total_tax := 65.2
  total_inclusive_amount := 500
  buyer_name := some "Naveed Baloch"
  payment_method := none
  cancelation := none
  allowance_total := some 10
  delivery_charges := none

/-- C1: invoice construction is deterministic.  The whole constructor
and parseLineItems pipeline is embedded as a pure function of the props
(the source reads no clock, randomness or ambient state), so two runs of
the pipeline on the same props return equal documents from getXML. -/
theorem claim1_construction_deterministic (props : ZATCASimplifiedInvoiceProps) :
    (newZATCASimplifiedTaxInvoice none (some props)).map getXML =
      (newZATCASimplifiedTaxInvoice none (some props)).map getXML :=
  rfl

/-- C8: in every invoice constructed from props, the LegalMonetaryTotal
LineExtensionAmount and TaxExclusiveAmount texts are the identical
string, equal to toFixed(2) of total_inclusive_amount truncated to two
decimals minus total_tax, and replacing the caller supplied
total_exl_amount changes nothing in the constructed document. -/
theorem claim8_legal_monetary_total (props : ZATCASimplifiedInvoiceProps) (x : ℚ) :
    ∃ doc lmt,
      newZATCASimplifiedTaxInvoice none (some props) = .ok doc ∧
      doc.lastSetAt "Invoice/cac:LegalMonetaryTotal" = some lmt ∧
      lmt.textAt "cbc:LineExtensionAmount" = lmt.textAt "cbc:TaxExclusiveAmount" ∧
      lmt.textAt "cbc:LineExtensionAmount" =
        some (.s (jsToFixed (truncTo props.total_inclusive_amount 2 - props.total_tax) 2)) ∧
      newZATCASimplifiedTaxInvoice none (some { props with total_exl_amount := x }) =
        newZATCASimplifiedTaxInvoice none (some props) := by
  refine ⟨parseLineItems (props.line_items.getD []) props
      ⟨.template (defaultSimplifiedTaxInvoice props), []⟩,
    legalMonetaryTotalValue (props.line_items.getD []) props,
    rfl, ?_, ?_, ?_, rfl⟩
  · rw [XMLDocument.lastSetAt, parseLineItems_setsAt_LMT _ _ _ rfl]
    rfl
  · simp [legalMonetaryTotalValue, constructLegalMonetaryTotal, JSValue.textAt,
      JSValue.lookup]
  · simp [legalMonetaryTotalValue, constructLegalMonetaryTotal, JSValue.textAt,
      JSValue.lookup]

/-- C10 counterexample: the constructor also throws the error when an
invoice_xml_str argument is supplied but is the empty string, because an
empty string is falsy; so the error is not thrown exactly when neither
argument is supplied. -/
theorem claim10_ctor_counterexample :
    newZATCASimplifiedTaxInvoice (some "") none =
      .error "Unable to create new XML invoice." ∧
    (some "" : Option String) ≠ none :=
  ⟨rfl, by simp⟩

/-- C10 amended: the constructor throws Unable to create new XML
invoice exactly when no truthy (nonempty) invoice_xml_str and no props
are supplied; a nonempty invoice_xml_str is parsed, and otherwise
supplied props build the document from the default template through
parseLineItems. -/
theorem claim10_ctor_amended (xml : Option String)
    (props : Option ZATCASimplifiedInvoiceProps) :
    (newZATCASimplifiedTaxInvoice xml props =
        .error "Unable to create new XML invoice."
      ↔ (sTruthy xml = false ∧ props = none)) ∧
    (∀ s, xml = some s → s ≠ "" →
      newZATCASimplifiedTaxInvoice xml props = .ok ⟨.parsed s, []⟩) ∧
    (sTruthy xml = false → ∀ p, props = some p →
      newZATCASimplifiedTaxInvoice xml props =
        .ok (parseLineItems (p.line_items.getD []) p
          ⟨.template (defaultSimplifiedTaxInvoice p), []⟩)) := by
  refine ⟨⟨?_, ?_⟩, ?_, ?_⟩
  · intro h
    by_cases hx : sTruthy xml = true
    · simp [newZATCASimplifiedTaxInvoice, hx] at h
    · cases props with
      | none => exact ⟨by simpa using hx, rfl⟩
      | some p => simp [newZATCASimplifiedTaxInvoice, hx] at h
  · rintro ⟨hx, rfl⟩
    simp [newZATCASimplifiedTaxInvoice, hx]
  · rintro s rfl hs
    have hx : sTruthy (some s) = true := by simp [sTruthy, hs]
    simp [newZATCASimplifiedTaxInvoice, hx, Option.getD]
  · rintro hx p rfl
    simp [newZATCASimplifiedTaxInvoice, hx]

/-- Closed witness for the amended C10 at concrete arguments: a
nonempty XML string is parsed, sample props build through the template,
and two absent arguments throw. -/
theorem claim10_ctor_amended_witness :
    newZATCASimplifiedTaxInvoice (some "<Invoice/>") none =
      .ok ⟨.parsed "<Invoice/>", []⟩ ∧
    newZATCASimplifiedTaxInvoice none (some sampleProps) =
      .ok (parseLineItems (sampleProps.line_items.getD []) sampleProps
        ⟨.template (defaultSimplifiedTaxInvoice sampleProps), []⟩) ∧
    newZATCASimplifiedTaxInvoice none none =
      .error "Unable to create new XML invoice." :=
  ⟨(claim10_ctor_amended (some "<Invoice/>") none).2.1 "<Invoice/>" rfl (by decide),
    (claim10_ctor_amended none (some sampleProps)).2.2 rfl sampleProps rfl,
    (claim10_ctor_amended none none).1.mpr ⟨rfl, rfl⟩⟩

namespace Zatca

/-! ## The signing pipeline (spec-modelled: signing.ts is not among the
sources; ZATCASimplifiedTaxInvoice.sign, source lines 538 to 544, only
delegates to generateSignedXMLString). -/

/-- Errors of the signing pipeline, from the error taxonomy of the
spec. -/
inductive SignError where
  | serialization (msg : String)
  | chain (msg : String)
  | certificateParse (msg : String)
  | unsupportedKey (msg : String)
  | signing (msg : String)
  | qr (e : QRError)
deriving DecidableEq, Repr

/-- Modelled from the spec: the read-only view of the supplied X.509
certificate extracted by the CertificateAdapter. -/
structure CertificateInfo where
  rawDerBytes : List Nat
  certificateSignature : List Nat
  publicKeyBytes : List Nat
deriving DecidableEq, Repr

/-- Modelled from the spec: the output bundle of one signing
operation. -/
structure SignedInvoicePackage where
  signed_invoice : XMLDocument
  invoice_hash : List Nat
  qr : List Nat

/-- Modelled from the spec: the collaborators the InvoiceSigner
orchestrates.  Canonical serialization, certificate parsing, digest
signing and QR encoding may fail; the content hash is a total
deterministic function of the canonical bytes.  The signing step
receives a nonce in accordance with the randomized ECDSA scheme of the
spec. -/
structure SigningEnv where
  canonicalize : XMLDocument → Except SignError (List Nat)
  hashBytes : List Nat → List Nat
  parseCertificate : String → Except SignError CertificateInfo
  signDigest : List Nat → String → Nat → Except SignError (List Nat)
  encodeQRFields : List (List Nat) → Except QRError (List Nat)

/-- Modelled from the spec: generateSignedXMLString, the pipeline behind
ZATCASimplifiedTaxInvoice.sign.  It canonicalizes the document (whose
predecessor hash field is already embedded), hashes the canonical bytes,
parses the certificate, signs the digest with the private key and the
nonce, encodes the QR fields, embeds the results into the document and
returns the complete package. -/
def generateSignedXMLString (env : SigningEnv) (nonce : Nat)
    (invoice_xml : XMLDocument)
    (certificate_string private_key_string : String) :
    Except SignError SignedInvoicePackage :=
  match env.canonicalize invoice_xml with
  | .error e => .error e
  | .ok canonical =>
    let invoice_hash := env.hashBytes canonical
    match env.parseCertificate certificate_string with
    | .error e => .error e
    | .ok cert =>
      match env.signDigest invoice_hash private_key_string nonce with
      | .error e => .error e
      | .ok signature =>
        match env.encodeQRFields
            [invoice_hash, signature, cert.publicKeyBytes,
              cert.certificateSignature] with
        | .error qe => .error (SignError.qr qe)
        | .ok qr =>
          .ok
            { signed_invoice := invoice_xml.set "Invoice/ext:UBLExtensions" true
                (.obj [
                  ("InvoiceHash", .arr (invoice_hash.map JSValue.q)),
                  ("SignatureValue", .arr (signature.map JSValue.q)),
                  ("Certificate", .s certificate_string)])
              invoice_hash := invoice_hash
              qr := qr }

/-- Modelled from the spec: SignatureEngine key parsing; key material
that is not a PEM public key block is malformed. -/
def parseKeyBytes (publicKey : String) : Option (List Nat) :=
  if "-----BEGIN PUBLIC KEY-----".toList.isPrefixOf publicKey.toList then
    some (publicKey.toList.map Char.toNat)
  else none

/-- Modelled from the spec: the executable stand-in for the ECDSA check
of SignatureEngine, a decidable relation between digest, signature and
key bytes. -/
def sigMatches (digest sig keyBytes : List Nat) : Bool :=
  sig = (keyBytes ++ digest).map (fun b => (b * 7 + 3) % 256)

/-- Modelled from the spec: SignatureEngine.verify.  Malformed key
material raises SigningError; a parsed key always yields the boolean of
the cryptographic check, so a mismatch is the value false and never an
exception. -/
def verify (digest sig : List Nat) (publicKey : String) :
    Except SignError Bool :=
  match parseKeyBytes publicKey with
  | none => .error (SignError.signing "malformed key material")
  | some kb => .ok (sigMatches digest sig kb)

/-- A concrete signing environment used to instantiate closed
witnesses. -/
def sampleEnv : SigningEnv where
  canonicalize doc := .ok [doc.sets.length % 256]
  hashBytes l := [l.length % 256, (l.foldl (fun a b => a + b) 0) % 256]
  parseCertificate s :=
    if s = "" then .error (SignError.certificateParse "empty certificate")
    else .ok ⟨[48, 130], [1, 2], [4, 65]⟩
  signDigest d _ nonce := .ok (nonce % 256 :: d)
  encodeQRFields := encodeTLV

end Zatca

/-- C2: the InvoiceHash of a signed package is a deterministic function
of the unsigned input: two signing runs on the same document,
certificate and key, differing only in the signing nonce, produce
packages with equal InvoiceHash values, although the signature bytes may
differ. -/
theorem claim2_sign_hash_deterministic (env : SigningEnv)
    (nonce1 nonce2 : Nat) (doc : XMLDocument) (cert key : String)
    (pkg1 pkg2 : SignedInvoicePackage)
    (h1 : generateSignedXMLString env nonce1 doc cert key = .ok pkg1)
    (h2 : generateSignedXMLString env nonce2 doc cert key = .ok pkg2) :
    pkg1.invoice_hash = pkg2.invoice_hash := by
  unfold generateSignedXMLString at h1 h2
  cases hc : env.canonicalize doc with
  | error e => rw [hc] at h1; cases h1
  | ok canonical =>
  rw [hc] at h1 h2
  simp only at h1 h2
  cases hp : env.parseCertificate cert with
  | error e => rw [hp] at h1; cases h1
  | ok ci =>
  rw [hp] at h1 h2
  simp only at h1 h2
  cases hs1 : env.signDigest (env.hashBytes canonical) key nonce1 with
  | error e => rw [hs1] at h1; cases h1
  | ok sig1 =>
  cases hs2 : env.signDigest (env.hashBytes canonical) key nonce2 with
  | error e => rw [hs2] at h2; cases h2
  | ok sig2 =>
  rw [hs1] at h1
  rw [hs2] at h2
  simp only at h1 h2
  cases hq1 : env.encodeQRFields
      [env.hashBytes canonical, sig1, ci.publicKeyBytes,
        ci.certificateSignature] with
  | error e => rw [hq1] at h1; cases h1
  | ok qr1 =>
  cases hq2 : env.encodeQRFields
      [env.hashBytes canonical, sig2, ci.publicKeyBytes,
        ci.certificateSignature] with
  | error e => rw [hq2] at h2; cases h2
  | ok qr2 =>
  rw [hq1] at h1
  rw [hq2] at h2
  cases h1
  cases h2
  rfl

/-- Closed package values of the sample environment, used in the C2
witness. -/
def samplePackage (nonce : Nat) : SignedInvoicePackage where
  signed_invoice := XMLDocument.set ⟨.parsed "x", []⟩
    "Invoice/ext:UBLExtensions" true (.obj [
      ("InvoiceHash", .arr ([1, 0].map JSValue.q)),
      ("SignatureValue", .arr ([nonce % 256, 1, 0].map JSValue.q)),
      ("Certificate", .s "CERT")])
  invoice_hash := [1, 0]
  qr := [1, 2, 1, 0, 2, 3, nonce % 256, 1, 0, 3, 2, 4, 65, 4, 2, 1, 2]

/-- Closed witness for C2: two concrete signing runs with nonces 0 and 1
succeed and the hash equality follows from the claim theorem applied to
them. -/
theorem claim2_sign_hash_deterministic_witness :
    (samplePackage 0).invoice_hash = (samplePackage 1).invoice_hash :=
  claim2_sign_hash_deterministic sampleEnv 0 1 ⟨.parsed "x", []⟩ "CERT" "KEY"
    (samplePackage 0) (samplePackage 1) rfl rfl

/-- C6: SignatureEngine.verify returns the boolean false and never
raises for a parsed key whose cryptographic check fails, while malformed
key material raises SigningError, so the two outcomes are
distinguishable. -/
theorem claim6_verify_mismatch_boolean (digest sig : List Nat) (pk : String) :
    (∀ kb, parseKeyBytes pk = some kb → sigMatches digest sig kb = false →
      verify digest sig pk = .ok false) ∧
    (parseKeyBytes pk = none →
      verify digest sig pk = .error (SignError.signing "malformed key material")) := by
  constructor
  · intro kb hkb hm
    unfold verify
    rw [hkb]
    simp only
    rw [hm]
  · intro hk
    unfold verify
    rw [hk]

/-- Closed witness for C6 at a concrete valid key with a mismatching
signature and at a concrete malformed key. -/
theorem claim6_verify_mismatch_boolean_witness :
    verify [1] [] "-----BEGIN PUBLIC KEY-----" = .ok false ∧
    verify [1] [] "bad key" = .error (SignError.signing "malformed key material") :=
  ⟨(claim6_verify_mismatch_boolean [1] [] "-----BEGIN PUBLIC KEY-----").1
      ("-----BEGIN PUBLIC KEY-----".toList.map Char.toNat) (by decide) (by decide),
    (claim6_verify_mismatch_boolean [1] [] "bad key").2 rfl⟩

/-- C7: the signing pipeline is atomic.  Every run returns either a
complete package or an error, and a failure of any step (canonical
serialization, certificate parsing, digest signing, QR encoding)
propagates as the error of the whole operation with no partial
output. -/
theorem claim7_sign_atomic (env : SigningEnv) (nonce : Nat)
    (doc : XMLDocument) (cert key : String) :
    ((∃ pkg, generateSignedXMLString env nonce doc cert key = .ok pkg) ∨
      (∃ e, generateSignedXMLString env nonce doc cert key = .error e)) ∧
    (∀ e, env.canonicalize doc = .error e →
      generateSignedXMLString env nonce doc cert key = .error e) ∧
    (∀ c e, env.canonicalize doc = .ok c →
      env.parseCertificate cert = .error e →
      generateSignedXMLString env nonce doc cert key = .error e) ∧
    (∀ c ci e, env.canonicalize doc = .ok c →
      env.parseCertificate cert = .ok ci →
      env.signDigest (env.hashBytes c) key nonce = .error e →
      generateSignedXMLString env nonce doc cert key = .error e) ∧
    (∀ c ci sg qe, env.canonicalize doc = .ok c →
      env.parseCertificate cert = .ok ci →
      env.signDigest (env.hashBytes c) key nonce = .ok sg →
      env.encodeQRFields
        [env.hashBytes c, sg, ci.publicKeyBytes, ci.certificateSignature] =
          .error qe →
      generateSignedXMLString env nonce doc cert key =
        .error (SignError.qr qe)) := by
  refine ⟨?_, ?_, ?_, ?_, ?_⟩
  · cases h : generateSignedXMLString env nonce doc cert key with
    | ok pkg => exact .inl ⟨pkg, rfl⟩
    | error e => exact .inr ⟨e, rfl⟩
  · intro e hc
    unfold generateSignedXMLString
    rw [hc]
  · intro c e hc hp
    unfold generateSignedXMLString
    rw [hc]
    simp only
    rw [hp]
  · intro c ci e hc hp hs
    unfold generateSignedXMLString
    rw [hc]
    simp only
    rw [hp]
    simp only
    rw [hs]
  · intro c ci sg qe hc hp hs hq
    unfold generateSignedXMLString
    rw [hc]
    simp only
    rw [hp]
    simp only
    rw [hs]
    simp only
    rw [hq]

/-- An environment whose canonical serialization fails, for the C7
witness. -/
def failCanonEnv : SigningEnv :=
  { sampleEnv with
    canonicalize := fun _ => .error (SignError.serialization "dangling namespace") }

/-- An environment whose QR encoding fails, for the C7 witness. -/
def qrFailEnv : SigningEnv :=
  { sampleEnv with
    encodeQRFields := fun _ => .error (QRError.fieldTooLarge 1) }

/-- Closed witness for C7: a serialization failure and a QR encoding
failure each abort concrete runs with exactly that error. -/
theorem claim7_sign_atomic_witness :
    generateSignedXMLString failCanonEnv 0 ⟨.parsed "x", []⟩ "CERT" "KEY" =
      .error (SignError.serialization "dangling namespace") ∧
    generateSignedXMLString qrFailEnv 0 ⟨.parsed "x", []⟩ "CERT" "KEY" =
      .error (SignError.qr (QRError.fieldTooLarge 1)) :=
  ⟨(claim7_sign_atomic failCanonEnv 0 ⟨.parsed "x", []⟩ "CERT" "KEY").2.1
      (SignError.serialization "dangling namespace") rfl,
    (claim7_sign_atomic qrFailEnv 0 ⟨.parsed "x", []⟩ "CERT" "KEY").2.2.2.2
      [0] ⟨[48, 130], [1, 2], [4, 65]⟩ [0 % 256, 1, 0]
      (QRError.fieldTooLarge 1) rfl rfl rfl rfl⟩

namespace Zatca

/-! ## Finite number numerals and the correctness of toFixedNoRounding

The toString image of a finite JavaScript number is an optional minus
sign, a nonempty integer digit run, an optional dot followed by a
nonempty fraction digit run, and an optional exponent part consisting of
the letter e, an explicit sign and a nonempty digit run.  The renderer
below produces exactly these character lists from structured data. -/

/-- The character of a decimal digit. -/
def digitChar (n : Nat) : Char :=
  Char.ofNat (48 + n)

/-- The optional dot and fraction digits of a numeral. -/
def fracPart (F : Option (List Nat)) : List Char :=
  match F with
  | some f => '.' :: f.map digitChar
  | none => []

/-- The optional exponent characters of a numeral: the letter e, an
explicit sign and the exponent digits. -/
def expPart (E : Option (Bool × List Nat)) : List Char :=
  match E with
  | some (eneg, ds) => 'e' :: (if eneg then '-' else '+') :: ds.map digitChar
  | none => []

/-- Renders a numeral from sign, integer digits, optional fraction
digits and optional exponent (sign and digits). -/
def renderNumeral (neg : Bool) (I : List Nat) (F : Option (List Nat))
    (E : Option (Bool × List Nat)) : List Char :=
  (if neg then ['-'] else []) ++ I.map digitChar ++ fracPart F ++ expPart E

/-- The natural number denoted by a digit run. -/
def digitsToNat (ds : List Nat) : Nat :=
  ds.foldl (fun acc dg => 10 * acc + dg) 0

/-- The fractional value denoted by a digit run placed after the dot. -/
def fracVal (ds : List Nat) : ℚ :=
  ds.foldr (fun dg acc => ((dg : ℚ) + acc) / 10) 0

/-- The rational denoted by a plain (non-exponential) numeral. -/
def plainVal (neg : Bool) (I : List Nat) (F : Option (List Nat)) : ℚ :=
  (if neg then -1 else 1) * ((digitsToNat I : ℚ) + fracVal (F.getD []))

/-- The fraction digits of the truncated numeral: the first d fraction
digits, padded with zeros to width d. -/
def truncDigits (F : Option (List Nat)) (d : Nat) : List Nat :=
  (F.getD []).take d ++ List.replicate (d - (F.getD []).length) 0

lemma digitChar_isDigit {n : Nat} (h : n < 10) : (digitChar n).isDigit = true := by
  interval_cases n <;> decide

lemma digitChar_ne_dash {n : Nat} (h : n < 10) : ¬ (digitChar n = '-') := by
  interval_cases n <;> decide

lemma digitChar_ne_dot {n : Nat} (h : n < 10) : ¬ (digitChar n = '.') := by
  interval_cases n <;> decide

lemma takeWhile_append_all {p : Char → Bool} (l1 l2 : List Char)
    (h : ∀ c ∈ l1, p c = true) :
    (l1 ++ l2).takeWhile p = l1 ++ l2.takeWhile p := by
  induction l1 with
  | nil => simp
  | cons c t ih =>
      rw [List.cons_append, List.takeWhile_cons, h c (List.mem_cons_self _ _)]
      simp only [if_true]
      rw [ih (fun x hx => h x (List.mem_cons_of_mem _ hx)), List.cons_append]

lemma dropWhile_append_all {p : Char → Bool} (l1 l2 : List Char)
    (h : ∀ c ∈ l1, p c = true) :
    (l1 ++ l2).dropWhile p = l2.dropWhile p := by
  induction l1 with
  | nil => simp
  | cons c t ih =>
      rw [List.cons_append, List.dropWhile_cons, h c (List.mem_cons_self _ _)]
      simp only [if_true]
      exact ih (fun x hx => h x (List.mem_cons_of_mem _ hx))

lemma takeWhile_not_head {p : Char → Bool} (c : Char) (l : List Char)
    (h : p c = false) : (c :: l).takeWhile p = [] := by
  rw [List.takeWhile_cons, h]
  simp

lemma dropWhile_not_head {p : Char → Bool} (c : Char) (l : List Char)
    (h : p c = false) : (c :: l).dropWhile p = c :: l := by
  rw [List.dropWhile_cons, h]
  simp

lemma findIdx_append_dot (pre post : List Char)
    (h : ∀ c ∈ pre, ¬ (c = '.')) :
    (pre ++ '.' :: post).findIdx? (fun c => c = '.') = some pre.length := by
  rw [List.findIdx?_append]
  have hpre : pre.findIdx? (fun c => decide (c = '.')) = none :=
    List.findIdx?_eq_none_iff.mpr (fun x hx => by simpa using h x hx)
  rw [hpre, List.findIdx?_cons]
  simp

end Zatca

namespace Zatca

/-! ## Proof infrastructure for the formatter correctness claim -/

lemma fracPart_expPart_takeWhile (F : Option (List Nat)) (E : Option (Bool × List Nat)) :
    ((fracPart F ++ expPart E).takeWhile Char.isDigit) = [] := by
  cases F with
  | some f => exact takeWhile_not_head _ _ (by decide)
  | none =>
      cases E with
      | some e =>
          obtain ⟨eneg, ds⟩ := e
          exact takeWhile_not_head _ _ (by decide)
      | none => rfl

lemma fracPart_expPart_dropWhile (F : Option (List Nat)) (E : Option (Bool × List Nat)) :
    ((fracPart F ++ expPart E).dropWhile Char.isDigit) = fracPart F ++ expPart E := by
  cases F with
  | some f => exact dropWhile_not_head _ _ (by decide)
  | none =>
      cases E with
      | some e =>
          obtain ⟨eneg, ds⟩ := e
          exact dropWhile_not_head _ _ (by decide)
      | none => rfl

lemma expPart_takeWhile (E : Option (Bool × List Nat)) :
    (expPart E).takeWhile Char.isDigit = [] := by
  cases E with
  | some e =>
      obtain ⟨eneg, ds⟩ := e
      exact takeWhile_not_head _ _ (by decide)
  | none => rfl

lemma matchFixedReg_render (d : Nat) (neg : Bool) (I : List Nat)
    (F : Option (List Nat)) (E : Option (Bool × List Nat))
    (hI : ∀ x ∈ I, x < 10) (hIne : I ≠ [])
    (hF : ∀ f ∈ F, ∀ x ∈ f, x < 10) :
    matchFixedReg d (renderNumeral neg I F E) =
      some ((if neg then ['-'] else []) ++ I.map digitChar ++
        fracPart (F.map (fun f => f.take d))) := by
  obtain ⟨i0, I1, rfl⟩ : ∃ i0 I1, I = i0 :: I1 := by
    cases I with
    | nil => exact absurd rfl hIne
    | cons a b => exact ⟨a, b, rfl⟩
  have hImap : ∀ c ∈ (i0 :: I1).map digitChar, c.isDigit = true := by
    intro c hc
    obtain ⟨x, hx, rfl⟩ := List.mem_map.mp hc
    exact digitChar_isDigit (hI x hx)
  have hdash : ¬ (digitChar i0 = '-') :=
    digitChar_ne_dash (hI i0 (List.mem_cons_self _ _))
  have hrest : (((i0 :: I1).map digitChar ++ (fracPart F ++ expPart E)).takeWhile
      Char.isDigit) = (i0 :: I1).map digitChar := by
    rw [takeWhile_append_all _ _ hImap, fracPart_expPart_takeWhile, List.append_nil]
  have hdrop : (((i0 :: I1).map digitChar ++ (fracPart F ++ expPart E)).dropWhile
      Char.isDigit) = fracPart F ++ expPart E := by
    rw [dropWhile_append_all _ _ hImap, fracPart_expPart_dropWhile]
  have hfrac : ∀ f, F = some f →
      ((f.map digitChar ++ expPart E).takeWhile Char.isDigit).take d =
        (f.take d).map digitChar := by
    intro f hf
    have hfmap : ∀ c ∈ f.map digitChar, c.isDigit = true := by
      intro c hc
      obtain ⟨x, hx, rfl⟩ := List.mem_map.mp hc
      exact digitChar_isDigit (hF f (hf ▸ Option.mem_def.mpr rfl) x hx)
    rw [takeWhile_append_all _ _ hfmap, expPart_takeWhile, List.append_nil,
      ← List.map_take]
  cases neg with
  | true =>
      simp only [renderNumeral, matchFixedReg, if_true, List.cons_append,
        List.nil_append, List.append_assoc, decide_True, List.tail_cons,
        eq_self_iff_true]
      rw [hrest, hdrop]
      simp only [List.map_cons, List.isEmpty_cons, Bool.false_eq_true, if_false]
      cases F with
      | some f =>
          simp only [fracPart, List.cons_append]
          rw [hfrac f rfl]
          simp [fracPart]
      | none =>
          cases E with
          | some e =>
              obtain ⟨eneg, ds⟩ := e
              simp [fracPart, expPart]
          | none => simp [fracPart, expPart]
  | false =>
      have hd2 : (decide (digitChar i0 = '-')) = false := by
        simpa using hdash
      have hrest2 : ((digitChar i0 :: (I1.map digitChar ++ (fracPart F ++ expPart E))).takeWhile
          Char.isDigit) = digitChar i0 :: I1.map digitChar := by
        simpa using hrest
      have hdrop2 : ((digitChar i0 :: (I1.map digitChar ++ (fracPart F ++ expPart E))).dropWhile
          Char.isDigit) = fracPart F ++ expPart E := by
        simpa using hdrop
      simp only [renderNumeral, matchFixedReg, List.nil_append, List.map_cons,
        List.cons_append, List.append_assoc, hd2, Bool.false_eq_true, if_false]
      rw [hrest2, hdrop2]
      simp only [List.isEmpty_cons, Bool.false_eq_true, if_false]
      cases F with
      | some f =>
          simp only [fracPart, List.cons_append]
          rw [hfrac f rfl]
          simp [fracPart]
      | none =>
          cases E with
          | some e =>
              obtain ⟨eneg, ds⟩ := e
              simp [fracPart, expPart]
          | none => simp [fracPart, expPart]

lemma proto_on_matched_dot (d : Nat) (s : List Char) (p ft : List Char)
    (hmatch : matchFixedReg d s = some (p ++ '.' :: ft))
    (hp : ∀ c ∈ p, ¬ (c = '.')) (hft : ft.length ≤ d) :
    protoToFixedNoRounding s d =
      p ++ '.' :: (ft ++ List.replicate (d - ft.length) '0') := by
  unfold protoToFixedNoRounding
  rw [hmatch]
  simp only []
  rw [findIdx_append_dot p ft hp]
  split
  · rename_i heq
    exact absurd heq (by simp)
  · rename_i dot heq
    injection heq with hdot
    subst hdot
    rcases eq_or_lt_of_le hft with hlt | hlt
    · have hb : ¬ (0 < (d : Int) -
          (((p ++ '.' :: ft).length : Int) - (p.length : Int)) + 1) := by
        simp only [List.length_append, List.length_cons]
        push_cast
        omega
      rw [if_neg hb]
      rw [← hlt]
      simp
    · have hb : 0 < (d : Int) -
          (((p ++ '.' :: ft).length : Int) - (p.length : Int)) + 1 := by
        simp only [List.length_append, List.length_cons]
        push_cast
        omega
      rw [if_pos hb]
      have hbt : ((d : Int) -
          (((p ++ '.' :: ft).length : Int) - (p.length : Int)) + 1).toNat =
          d - ft.length := by
        simp only [List.length_append, List.length_cons]
        push_cast
        omega
      rw [hbt]
      simp [List.append_assoc]

lemma proto_on_matched_nodot (d : Nat) (s : List Char) (p : List Char)
    (hmatch : matchFixedReg d s = some p)
    (hp : ∀ c ∈ p, ¬ (c = '.')) :
    protoToFixedNoRounding s d = p ++ '.' :: List.replicate d '0' := by
  unfold protoToFixedNoRounding
  rw [hmatch]
  simp only []
  have hidx : p.findIdx? (fun c => c = '.') = none :=
    List.findIdx?_eq_none_iff.mpr (fun x hx => by simpa using hp x hx)
  rw [hidx]

lemma protoToFixedNoRounding_render (d : Nat) (neg : Bool) (I : List Nat)
    (F : Option (List Nat)) (E : Option (Bool × List Nat))
    (hI : ∀ x ∈ I, x < 10) (hIne : I ≠ [])
    (hF : ∀ f ∈ F, ∀ x ∈ f, x < 10)
    (hmatch : matchFixedReg d (renderNumeral neg I F E) =
      some ((if neg then ['-'] else []) ++ I.map digitChar ++
        fracPart (F.map (fun f => f.take d)))) :
    protoToFixedNoRounding (renderNumeral neg I F E) d =
      renderNumeral neg I (some (truncDigits F d)) none := by
  have hsgdot : ∀ c ∈ (if neg then ['-'] else []) ++ I.map digitChar, ¬ (c = '.') := by
    intro c hc
    rcases List.mem_append.mp hc with h1 | h2
    · cases neg with
      | true =>
          simp only [if_true, List.mem_singleton] at h1
          rw [h1]
          decide
      | false => simp at h1
    · obtain ⟨x, hx, rfl⟩ := List.mem_map.mp h2
      exact digitChar_ne_dot (hI x hx)
  have h0 : ('0' : Char) = digitChar 0 := by decide
  cases F with
  | none =>
      have hm2 : matchFixedReg d (renderNumeral neg I none E) =
          some ((if neg then ['-'] else []) ++ I.map digitChar) := by
        simpa [fracPart] using hmatch
      rw [proto_on_matched_nodot d _ _ hm2 hsgdot]
      simp [renderNumeral, truncDigits, fracPart, expPart, List.map_replicate,
        h0, List.append_assoc]
      exact Or.inr h0
  | some f =>
      have hm2 : matchFixedReg d (renderNumeral neg I (some f) E) =
          some (((if neg then ['-'] else []) ++ I.map digitChar) ++
            '.' :: (f.take d).map digitChar) := by
        simpa [fracPart, List.append_assoc] using hmatch
      have hftlen : ((f.take d).map digitChar).length ≤ d := by
        simp only [List.length_map, List.length_take]
        exact inf_le_left
      rw [proto_on_matched_dot d _ _ _ hm2 hsgdot hftlen]
      have hdd : d - ((f.take d).map digitChar).length = d - f.length := by
        simp only [List.length_map, List.length_take]
        rcases le_total d f.length with h | h
        · rw [Nat.min_eq_left h]
          omega
        · rw [Nat.min_eq_right h]
      rw [hdd]
      simp [renderNumeral, truncDigits, fracPart, expPart, h0,
        List.map_replicate, List.append_assoc]
      exact Or.inr h0

lemma digitsToNat_aux (xs : List Nat) :
    ∀ a : Nat, xs.foldl (fun acc dg => 10 * acc + dg) a =
      a * 10 ^ xs.length + digitsToNat xs := by
  induction xs with
  | nil => intro a; simp [digitsToNat]
  | cons dg tl ih =>
      intro a
      rw [digitsToNat, List.foldl_cons, List.foldl_cons, ih (10 * a + dg),
        ih (10 * 0 + dg), List.length_cons, pow_succ]
      ring

lemma digitsToNat_cons (dg : Nat) (xs : List Nat) :
    digitsToNat (dg :: xs) = dg * 10 ^ xs.length + digitsToNat xs := by
  rw [digitsToNat, List.foldl_cons, digitsToNat_aux]
  ring_nf

lemma fracVal_cons (dg : Nat) (xs : List Nat) :
    fracVal (dg :: xs) = ((dg : ℚ) + fracVal xs) / 10 := rfl

lemma fracVal_nonneg (xs : List Nat) : 0 ≤ fracVal xs := by
  induction xs with
  | nil => simp [fracVal]
  | cons dg tl ih =>
      rw [fracVal_cons]
      positivity

lemma fracVal_lt_one (xs : List Nat) (h : ∀ x ∈ xs, x < 10) : fracVal xs < 1 := by
  induction xs with
  | nil => norm_num [fracVal]
  | cons dg tl ih =>
      rw [fracVal_cons, div_lt_one (by norm_num : (0:ℚ) < 10)]
      have h1 : (dg : ℚ) ≤ 9 := by
        have := h dg (List.mem_cons_self _ _)
        exact_mod_cast Nat.lt_succ_iff.mp this
      have h2 : fracVal tl < 1 := ih (fun x hx => h x (List.mem_cons_of_mem _ hx))
      linarith

lemma fracVal_scaled (xs : List Nat) :
    (10 : ℚ) ^ xs.length * fracVal xs = (digitsToNat xs : ℚ) := by
  induction xs with
  | nil => simp [fracVal, digitsToNat]
  | cons dg tl ih =>
      rw [fracVal_cons, List.length_cons, digitsToNat_cons]
      push_cast
      rw [pow_succ]
      field_simp
      linarith [ih]

lemma fracVal_append (l1 l2 : List Nat) :
    fracVal (l1 ++ l2) = fracVal l1 + fracVal l2 / 10 ^ l1.length := by
  induction l1 with
  | nil => simp [fracVal]
  | cons dg tl ih =>
      rw [List.cons_append, fracVal_cons, fracVal_cons, ih, List.length_cons,
        pow_succ]
      field_simp
      ring

lemma fracVal_replicate_zero (k : Nat) : fracVal (List.replicate k 0) = 0 := by
  induction k with
  | zero => rfl
  | succ n ih =>
      rw [List.replicate_succ, fracVal_cons, ih]
      norm_num

lemma fracVal_append_zeros (xs : List Nat) (k : Nat) :
    fracVal (xs ++ List.replicate k 0) = fracVal xs := by
  rw [fracVal_append, fracVal_replicate_zero]
  simp

lemma truncTo_neg (x : ℚ) (d : Nat) : truncTo (-x) d = - truncTo x d := by
  unfold truncTo truncScaled
  rcases lt_trichotomy x 0 with hx | hx | hx
  · rw [if_pos (by linarith : (0:ℚ) ≤ -x), if_neg (not_le.mpr hx)]
    push_cast
    ring
  · subst hx
    norm_num
  · rw [if_neg (by linarith : ¬ (0:ℚ) ≤ -x), if_pos (le_of_lt hx)]
    rw [neg_neg]
    push_cast
    ring

lemma truncTo_digits (N : Nat) (f : List Nat) (d : Nat) (hf : ∀ x ∈ f, x < 10) :
    truncTo ((N : ℚ) + fracVal f) d =
      (N : ℚ) + fracVal (f.take d ++ List.replicate (d - f.length) 0) := by
  have hx : (0:ℚ) ≤ (N : ℚ) + fracVal f :=
    add_nonneg (Nat.cast_nonneg _) (fracVal_nonneg f)
  have h10 : (10:ℚ) ^ d ≠ 0 := by positivity
  rw [truncTo, truncScaled, if_pos hx]
  rcases le_or_lt d f.length with hdf | hdf
  · have hd0 : d - f.length = 0 := Nat.sub_eq_zero_of_le hdf
    rw [hd0, List.replicate_zero, List.append_nil]
    have hlen1 : (f.take d).length = d := by
      rw [List.length_take]
      exact Nat.min_eq_left hdf
    have hf1 : (10:ℚ) ^ d * fracVal (f.take d) = (digitsToNat (f.take d) : ℚ) := by
      have h := fracVal_scaled (f.take d)
      rw [hlen1] at h
      exact h
    have hfr : fracVal f = fracVal (f.take d) + fracVal (f.drop d) / 10 ^ d := by
      conv_lhs => rw [← List.take_append_drop d f]
      rw [fracVal_append, hlen1]
    have hscale : ((N : ℚ) + fracVal f) * 10 ^ d =
        (((N * 10 ^ d + digitsToNat (f.take d) : Nat) : Int) : ℚ) +
          fracVal (f.drop d) := by
      rw [hfr]
      push_cast
      field_simp
      linarith [hf1]
    rw [hscale, Int.floor_int_add,
      Int.floor_eq_zero_iff.mpr
        ⟨fracVal_nonneg _,
          fracVal_lt_one _ (fun x hx2 => hf x (List.mem_of_mem_drop hx2))⟩]
    push_cast
    field_simp
    linarith [hf1]
  · have htk : f.take d = f := List.take_of_length_le (le_of_lt hdf)
    rw [htk, fracVal_append_zeros]
    have hint : ((N : ℚ) + fracVal f) * 10 ^ d =
        (((N * 10 ^ d + digitsToNat f * 10 ^ (d - f.length) : Nat) : Int) : ℚ) := by
      have hpow : (10:ℚ) ^ d = 10 ^ f.length * 10 ^ (d - f.length) := by
        rw [← pow_add]
        congr 1
        omega
      have hsc := fracVal_scaled f
      push_cast
      calc ((N : ℚ) + fracVal f) * 10 ^ d
          = (N : ℚ) * 10 ^ d + (10 ^ f.length * fracVal f) * 10 ^ (d - f.length) := by
            rw [hpow]
            ring
        _ = (N : ℚ) * 10 ^ d + (digitsToNat f : ℚ) * 10 ^ (d - f.length) := by
            rw [hsc]
    rw [hint, Int.floor_intCast, ← hint]
    field_simp

lemma truncDigits_length (F : Option (List Nat)) (d : Nat) :
    (truncDigits F d).length = d := by
  simp only [truncDigits, List.length_append, List.length_take,
    List.length_replicate]
  rcases le_total d (F.getD []).length with h | h
  · rw [Nat.min_eq_left h]
    omega
  · rw [Nat.min_eq_right h]
    omega

lemma truncDigits_lt_ten (F : Option (List Nat)) (d : Nat)
    (hF : ∀ f ∈ F, ∀ x ∈ f, x < 10) :
    ∀ x ∈ truncDigits F d, x < 10 := by
  intro x hx
  rcases List.mem_append.mp hx with h1 | h2
  · have hfd : ∀ y ∈ (F.getD []), y < 10 := by
      cases F with
      | none => simp
      | some f => simpa using hF f rfl
    exact hfd x (List.take_subset d _ h1)
  · rw [List.eq_of_mem_replicate h2]
    norm_num

lemma plainVal_trunc (neg : Bool) (I : List Nat) (F : Option (List Nat))
    (d : Nat) (hF : ∀ f ∈ F, ∀ x ∈ f, x < 10) :
    plainVal neg I (some (truncDigits F d)) = truncTo (plainVal neg I F) d := by
  have hfd : ∀ x ∈ (F.getD []), x < 10 := by
    cases F with
    | none => simp
    | some f => simpa using hF f rfl
  have hmain : (digitsToNat I : ℚ) + fracVal (truncDigits F d) =
      truncTo ((digitsToNat I : ℚ) + fracVal (F.getD [])) d := by
    rw [truncTo_digits (digitsToNat I) (F.getD []) d hfd]
    rfl
  cases neg with
  | false =>
      simp only [plainVal, Bool.false_eq_true, if_false, one_mul,
        Option.getD_some]
      exact hmain
  | true =>
      simp only [plainVal, if_true, Option.getD_some, neg_one_mul]
      rw [truncTo_neg]
      rw [hmain]

lemma sign_int_no_dot (neg : Bool) (I : List Nat) (hI : ∀ x ∈ I, x < 10) :
    ∀ c ∈ (if neg then ['-'] else []) ++ I.map digitChar, ¬ (c = '.') := by
  intro c hc
  rcases List.mem_append.mp hc with h1 | h2
  · cases neg with
    | true =>
        simp only [if_true, List.mem_singleton] at h1
        rw [h1]
        decide
    | false => simp at h1
  · obtain ⟨x, hx, rfl⟩ := List.mem_map.mp h2
    exact digitChar_ne_dot (hI x hx)


end Zatca

/-- C9: on the toString image of every finite number (rendered from an
optional sign, nonempty integer digits, optional fraction digits and
optional exponent), with d at least 1, the patched toFixedNoRounding
returns a string with a single decimal point followed by exactly d
digit characters; and on plain (non-exponential) numerals the result is
the numeral whose value is the input value truncated toward zero at d
fraction digits, never rounded away from zero. -/
theorem claim9_toFixedNoRounding_truncation (neg : Bool) (I : List Nat) (F : Option (List Nat))
    (E : Option (Bool × List Nat)) (d : Nat)
    (hd : 1 ≤ d) (hI : ∀ x ∈ I, x < 10) (hIne : I ≠ [])
    (hF : ∀ f ∈ F, ∀ x ∈ f, x < 10) :
    (∃ p q, protoToFixedNoRounding (renderNumeral neg I F E) d = p ++ '.' :: q ∧
      (∀ c ∈ p, ¬ (c = '.')) ∧ (∀ c ∈ q, ¬ (c = '.')) ∧
      q.length = d ∧ (∀ c ∈ q, c.isDigit = true)) ∧
    (E = none →
      protoToFixedNoRounding (renderNumeral neg I F E) d =
        renderNumeral neg I (some (truncDigits F d)) none ∧
      plainVal neg I (some (truncDigits F d)) = truncTo (plainVal neg I F) d) := by
  have hmatch := matchFixedReg_render d neg I F E hI hIne hF
  have hrender := protoToFixedNoRounding_render d neg I F E hI hIne hF hmatch
  constructor
  · refine ⟨(if neg then ['-'] else []) ++ I.map digitChar,
      (truncDigits F d).map digitChar, ?_, sign_int_no_dot neg I hI, ?_, ?_, ?_⟩
    · rw [hrender]
      simp [renderNumeral, fracPart, expPart, List.append_assoc]
    · intro c hc
      obtain ⟨x, hx, rfl⟩ := List.mem_map.mp hc
      exact digitChar_ne_dot (truncDigits_lt_ten F d hF x hx)
    · rw [List.length_map, truncDigits_length]
    · intro c hc
      obtain ⟨x, hx, rfl⟩ := List.mem_map.mp hc
      exact digitChar_isDigit (truncDigits_lt_ten F d hF x hx)
  · intro _
    exact ⟨hrender, plainVal_trunc neg I F d hF⟩

theorem claim9_toFixedNoRounding_truncation_witness :
    (∃ p q, protoToFixedNoRounding
        (renderNumeral false [1, 2] (some [3, 4, 5]) none) 2 = p ++ '.' :: q ∧
      (∀ c ∈ p, ¬ (c = '.')) ∧ (∀ c ∈ q, ¬ (c = '.')) ∧
      q.length = 2 ∧ (∀ c ∈ q, c.isDigit = true)) ∧
    ((none : Option (Bool × List Nat)) = none →
      protoToFixedNoRounding (renderNumeral false [1, 2] (some [3, 4, 5]) none) 2 =
        renderNumeral false [1, 2] (some (truncDigits (some [3, 4, 5]) 2)) none ∧
      plainVal false [1, 2] (some (truncDigits (some [3, 4, 5]) 2)) =
        truncTo (plainVal false [1, 2] (some [3, 4, 5])) 2) :=
  claim9_toFixedNoRounding_truncation false [1, 2] (some [3, 4, 5]) none 2 (by norm_num) (by decide)
    (by decide)
    (by
      intro f hf
      have h2 := Option.mem_def.mp hf
      injection h2 with h3
      subst h3
      decide)
